import Mathlib

/-
Verification of the inferior-control core of the Deet debugger.

The definitions below are a shallow embedding of the Rust sources:
  src/inferior.rs          (Inferior: write_byte, continue_run, step_over,
                            print_backtrace, align_addr_to_word, Status)
  src/dwarf_data.rs        (DwarfData: get_target_file, get_addr_for_line,
                            get_addr_for_function, get_line_from_addr,
                            get_function_from_addr)
  src/debugger_command.rs  (DebuggerCommand::from_tokens)
  src/debugger.rs          (Debugger::run command dispatch, parse_address,
                            the breakpoint arm)

Modelling conventions:
  - usize / u64 values are Nat, with explicit `% 2 ^ 64` where the source
    relies on the machine word width.
  - Child memory is modelled at the granularity of the ptrace interface the
    source uses exclusively: `mem : Nat → Nat` maps an address to the word
    that `ptrace::read` returns there.  Patching always goes through
    `align_addr_to_word`, exactly as in the source.
  - The traced child is a black box: the outcome of letting it run (a
    single-step or a continue followed by `waitpid`) is an explicit
    `WaitOutcome` argument.  The child is assumed not to rewrite its own
    text while running (the spec's stated precondition for the patch
    protocol), so a wait outcome only moves the register state.
  - Every ptrace operation issued by an embedded function is recorded in a
    ghost `log : List PtraceEvent` field so that ordering claims
    (restore → rewind → step → re-arm) can be stated; the log has no
    influence on the computation.
  - Fallible Rust paths are modelled with Option: `none` models a panic
    (a failed `.unwrap()` / out-of-bounds index) or a ptrace error that the
    session unwraps.
  - DWARF parsing is external to the repository (the addr2line context);
    per the spec it is a black box answering address queries, so
    `DwarfData.lineOf` and `DwarfData.funcOf` are function-valued fields,
    while the table-driven queries (`get_addr_for_line`,
    `get_addr_for_function`, `get_target_file`) are embedded from the
    source code.
-/

namespace Deet

/-- The modulus of usize / u64 arithmetic on x86_64. -/
def wordMod : Nat := 2 ^ 64

/-- From src/inferior.rs, `align_addr_to_word`:
`addr & (-(size_of::<usize>() as isize) as usize)`.
On x86_64 the mask `-(8 : isize) as usize` is `2 ^ 64 - 8`. -/
def align_addr_to_word (addr : Nat) : Nat := addr &&& (wordMod - 8)

/-- Ghost trace of the ptrace operations a function issues against the
child, in program order. `patch` is a `write_byte` call, `setRip` a
`ptrace::setregs` that rewinds the instruction pointer, `singleStep` a
`ptrace::step`, and `resume` a `ptrace::cont` delivering the optional
signal. -/
inductive PtraceEvent where
  | patch (addr : Nat) (val : Nat)
  | setRip (v : Nat)
  | singleStep
  | resume (signal : Option Nat)
deriving DecidableEq

/-- Register and memory state of the stopped child, plus the ghost ptrace
log. `mem a` is the word `ptrace::read` yields at address `a`. -/
structure ChildState where
  mem : Nat → Nat
  rip : Nat
  rbp : Nat
  log : List PtraceEvent

/-- `ptrace::read(..)? as u64`: the word at `a`, as a 64-bit value. -/
def readWord (st : ChildState) (a : Nat) : Nat := st.mem a % wordMod

/-- `ptrace::write` of word `w` at address `a`. -/
def writeWord (st : ChildState) (a w : Nat) : ChildState :=
  { st with mem := fun x => if x = a then w else st.mem x }

/-- From src/inferior.rs, `Inferior::write_byte`: read the word containing
`addr`, splice byte `val` in at the byte offset, write the word back, and
return the original byte. -/
def write_byte (st : ChildState) (addr val : Nat) : Nat × ChildState :=
  let aligned_addr := align_addr_to_word addr
  let byte_offset := addr - aligned_addr
  let word := readWord st aligned_addr
  let orig_byte := (word >>> (8 * byte_offset)) &&& 0xff
  let masked_word := word &&& ((wordMod - 1) ^^^ (0xff <<< (8 * byte_offset)))
  let updated_word := masked_word ||| (val <<< (8 * byte_offset))
  (orig_byte,
    { writeWord st aligned_addr updated_word with
        log := st.log ++ [.patch addr val] })

/-- The byte the child observes at `addr`: extracted from the word at the
aligned address, exactly as `write_byte` extracts `orig_byte`. -/
def byteAt (st : ChildState) (addr : Nat) : Nat :=
  (readWord st (align_addr_to_word addr) >>> (8 * (addr - align_addr_to_word addr))) &&& 0xff

/-- Byte `off` of a word, as `write_byte` reads it. -/
def getByte (w k : Nat) : Nat := (w >>> k) &&& 0xff

/-- The word `write_byte` writes back: clear the byte at bit offset `k`
and OR in `v`. -/
def patchWord (w k v : Nat) : Nat :=
  (w &&& ((wordMod - 1) ^^^ (0xff <<< k))) ||| (v <<< k)

/-- From src/inferior.rs, `enum Status`: the value produced by a wait. -/
inductive Status where
  | Stopped (signal : Nat) (ip : Nat)
  | Exited (code : Int)
  | Signaled (signal : Nat)
deriving DecidableEq

/-- What the black-box child does once it is allowed to run (by a
`ptrace::step` or a `ptrace::cont`) up to the next `waitpid`: it stops
again with a signal at a new instruction pointer, exits, or dies to a
signal. The child does not rewrite its own text (the spec precondition
for the patch protocol), so memory is untouched. -/
inductive WaitOutcome where
  | stopped (signal : Nat) (newRip : Nat)
  | exited (code : Int)
  | signaled (signal : Nat)
deriving DecidableEq

/-- From src/inferior.rs, `Inferior::wait`: turn a waitpid result into a
`Status`; on a stop the instruction pointer is read back from the child
registers, which the outcome has moved to `newRip`. -/
def applyWait (st : ChildState) (o : WaitOutcome) : Status × ChildState :=
  match o with
  | .exited code => (.Exited code, st)
  | .signaled sig => (.Signaled sig, st)
  | .stopped sig r => (.Stopped sig r, { st with rip := r })

/-- `ptrace::cont(pid, signal)` followed by `self.wait(None)`. -/
def resumeAndWait (st : ChildState) (signal : Option Nat) (o : WaitOutcome) :
    Status × ChildState :=
  applyWait { st with log := st.log ++ [PtraceEvent.resume signal] } o

/-- The breakpoint / pending-step registries: `HashMap<usize, u8>` from the
source, embedded as an association list (iteration order of the map is
fixed to list order). -/
def AddrMap : Type := List (Nat × Nat)

/-- `HashMap::get`. -/
def lookupAddr (m : AddrMap) (a : Nat) : Option Nat :=
  match m with
  | [] => none
  | (k, v) :: rest => if k = a then some v else lookupAddr rest a

/-- `HashMap::insert` (overwrites an existing key). -/
def insertAddr (m : AddrMap) (a v : Nat) : AddrMap :=
  match m with
  | [] => [(a, v)]
  | (k, w) :: rest =>
    if k = a then (a, v) :: rest else (k, w) :: insertAddr rest a v

/-- From src/inferior.rs, `Inferior::continue_run`. If the child is
stopped one byte past a registered breakpoint, restore the original byte,
rewind the instruction pointer, single-step and wait (returning at once
if the child died), re-arm the trap byte; then resume with `cont` and
wait. The registry is borrowed immutably (`&HashMap`), so `continue_run`
cannot change a saved byte; it also never consults the pending-step
registry (the source function does not receive it). -/
def continue_run (st : ChildState) (signal : Option Nat)
    (breakpoints : AddrMap) (stepWait contWait : WaitOutcome) :
    Status × ChildState :=
  let rip := st.rip
  match lookupAddr breakpoints (rip - 1) with
  | some ori_instr =>
    let st1 := (write_byte st (rip - 1) ori_instr).2
    let st2 := { st1 with rip := rip - 1, log := st1.log ++ [PtraceEvent.setRip (rip - 1)] }
    let st3 := { st2 with log := st2.log ++ [PtraceEvent.singleStep] }
    match applyWait st3 stepWait with
    | (.Exited code, st4) => (.Exited code, st4)
    | (.Signaled sig, st4) => (.Signaled sig, st4)
    | (.Stopped _ _, st4) =>
      let st5 := (write_byte st4 (rip - 1) 0xcc).2
      resumeAndWait st5 signal contWait
  | none => resumeAndWait st signal contWait

/-- From src/dwarf_data.rs, `struct Line`. -/
structure Line where
  file : String
  number : Nat
  address : Nat
deriving DecidableEq

/-- From src/dwarf_data.rs, `struct Function` (the `variables` field is
never consulted by the embedded operations and is omitted). -/
structure Function where
  name : String
  address : Nat
  text_length : Nat
  line_number : Nat
deriving DecidableEq

/-- From src/dwarf_data.rs, `struct File` (the `global_variables` field is
never consulted by the embedded operations and is omitted). -/
structure File where
  name : String
  functions : List Function
  lines : List Line
deriving DecidableEq

/-- From src/dwarf_data.rs, `struct DwarfData`. `files` is the parsed
per-compilation-unit table; `lineOf` and `funcOf` stand for the external
addr2line context (`find_location` / `find_frames`), which the spec
treats as a black box answering address queries. `lineOf` returns the
(file, line-number) pair of `find_location` when all components are
present. -/
structure DwarfData where
  files : List File
  lineOf : Nat → Option (String × Nat)
  funcOf : Nat → Option String

/-- Rust `str::starts_with`, at character level. -/
def strStartsWith (s pre : String) : Bool := pre.toList.isPrefixOf s.toList

/-- Rust `str::ends_with`, at character level. -/
def strEndsWith (s suffix : String) : Bool := suffix.toList.isSuffixOf s.toList

/-- Rust `str::contains(char)`, at character level. -/
def strContains (s : String) (c : Char) : Bool := s.toList.contains c

/-- Rust `str::to_lowercase` (the source only lowercases ASCII `0X`). -/
def strToLower (s : String) : String := String.mk (s.toList.map Char.toLower)

/-- From src/dwarf_data.rs, `DwarfData::get_target_file`. -/
def get_target_file (d : DwarfData) (file : String) : Option File :=
  d.files.find? fun f =>
    f.name == file || (!(strContains file '/') && strEndsWith f.name ("/" ++ file))

/-- From src/dwarf_data.rs, `DwarfData::get_addr_for_line`: absent file
selects the first compilation unit; return the address of the first
recorded line whose number is `>= line_number`. -/
def get_addr_for_line (d : DwarfData) (file : Option String)
    (line_number : Nat) : Option Nat :=
  match (match file with
         | some filename => get_target_file d filename
         | none => d.files[0]?) with
  | none => none
  | some target_file =>
    (target_file.lines.find? fun l => decide (l.number ≥ line_number)).map Line.address

/-- From src/dwarf_data.rs, `DwarfData::get_addr_for_function`: absent
file scans all files; first function whose name matches exactly. -/
def get_addr_for_function (d : DwarfData) (file : Option String)
    (func_name : String) : Option Nat :=
  match file with
  | some filename =>
    match get_target_file d filename with
    | none => none
    | some tf => (tf.functions.find? fun fn => fn.name == func_name).map Function.address
  | none =>
    d.files.findSome? fun f =>
      (f.functions.find? fun fn => fn.name == func_name).map Function.address

/-- From src/dwarf_data.rs, `DwarfData::get_line_from_addr`: the black-box
location query, packaged with `address := curr_addr`. -/
def get_line_from_addr (d : DwarfData) (curr_addr : Nat) : Option Line :=
  match d.lineOf curr_addr with
  | none => none
  | some (f, n) => some ⟨f, n, curr_addr⟩

/-- From src/dwarf_data.rs, `DwarfData::get_function_from_addr`. -/
def get_function_from_addr (d : DwarfData) (curr_addr : Nat) : Option String :=
  d.funcOf curr_addr

/-- Tail of src/inferior.rs `Inferior::step_over` (lines 289-303): compute
the next line address; when present, install a pending-step trap there
and record the original byte in the pending-step registry; then resume
with `cont` and wait. -/
def installAndResume (st : ChildState) (step_points : AddrMap)
    (signal : Option Nat) (dwarf_data : DwarfData) (line_object : Line)
    (contWait : WaitOutcome) : Option (Status × ChildState × AddrMap) :=
  match get_addr_for_line dwarf_data none (line_object.number + 1) with
  | some addr_value =>
    let p := write_byte st addr_value 0xcc
    let r := resumeAndWait p.2 signal contWait
    some (r.1, r.2, insertAddr step_points addr_value p.1)
  | none =>
    let r := resumeAndWait st signal contWait
    some (r.1, r.2, step_points)

/-- From src/inferior.rs, `Inferior::step_over`. `none` models an abnormal
abort of the operation: the `get_line_from_addr(rip).unwrap()` panic when
the current address has no line, or a ptrace failure after the child died
mid-step (the session unwraps the result either way, see
src/debugger.rs). Note the pending-step branch restores and rewinds but
issues `ptrace::step` without waiting, does not re-arm the trap, and
never removes the registry entry. -/
def step_over (st : ChildState) (breakpoints step_points : AddrMap)
    (signal : Option Nat) (dwarf_data : DwarfData)
    (stepWait contWait : WaitOutcome) : Option (Status × ChildState × AddrMap) :=
  let rip := st.rip
  match get_line_from_addr dwarf_data rip with
  | none => none
  | some line_object =>
    match lookupAddr breakpoints (rip - 1) with
    | some ori_instr =>
      let st1 := (write_byte st (rip - 1) ori_instr).2
      let st2 := { st1 with rip := rip - 1, log := st1.log ++ [PtraceEvent.setRip (rip - 1)] }
      let st3 := { st2 with log := st2.log ++ [PtraceEvent.singleStep] }
      match applyWait st3 stepWait with
      | (.Exited code, st4) => some (.Exited code, st4, step_points)
      | (.Signaled sig, st4) => some (.Signaled sig, st4, step_points)
      | (.Stopped _ _, st4) =>
        let st5 := (write_byte st4 (rip - 1) 0xcc).2
        installAndResume st5 step_points signal dwarf_data line_object contWait
    | none =>
      match lookupAddr step_points (rip - 1) with
      | some ori_instr =>
        let st1 := (write_byte st (rip - 1) ori_instr).2
        let st2 := { st1 with rip := rip - 1, log := st1.log ++ [PtraceEvent.setRip (rip - 1)] }
        match stepWait with
        | .stopped _ r =>
          let st3 := { st2 with rip := r, log := st2.log ++ [PtraceEvent.singleStep] }
          installAndResume st3 step_points signal dwarf_data line_object contWait
        | _ => none
      | none => installAndResume st step_points signal dwarf_data line_object contWait

/-- Advance of the frame walk in src/inferior.rs `Inferior::print_backtrace`:
`rip <- read(rbp + 8)`, `rbp <- read(rbp)` (usize address arithmetic). -/
def backtraceStep (st : ChildState) (p : Nat × Nat) : Nat × Nat :=
  (readWord st ((p.2 + 8) % wordMod), readWord st p.2)

/-- Stop test of the backtrace loop: stop when the function name cannot be
resolved or resolves to "main". -/
def backtraceStops (d : DwarfData) (ip : Nat) : Bool :=
  match get_function_from_addr d ip with
  | none => true
  | some fn => fn == "main"

/-- The pair (rip, rbp) after `n` frame advances from `p`. -/
def backtraceChain (st : ChildState) (p : Nat × Nat) : Nat → Nat × Nat
  | 0 => p
  | n + 1 => backtraceStep st (backtraceChain st p n)

/-- From src/inferior.rs, `Inferior::print_backtrace`, as a fuelled loop.
Each iteration resolves and prints one frame (modelled as the
(line, function) pair); the walk stops after printing a frame whose
function is unresolvable or is "main", else advances along the
frame-pointer chain. `none` means the fuel ran out before the stop
condition was reached (the source loop would still be running). -/
def print_backtrace (d : DwarfData) (st : ChildState) :
    Nat → Nat × Nat → Option (List (Option Line × Option String))
  | 0, _ => none
  | fuel + 1, p =>
    let frame := (get_line_from_addr d p.1, get_function_from_addr d p.1)
    if backtraceStops d p.1 then some [frame]
    else
      match print_backtrace d st fuel (backtraceStep st p) with
      | none => none
      | some rest => some (frame :: rest)

/-- From src/debugger.rs, the live arm of the Breakpoint command
(lines 297-303): patch the trap byte immediately and record whatever byte
`write_byte` returns as the saved byte. -/
def install_breakpoint_live (st : ChildState) (breakpoints : AddrMap)
    (addr : Nat) : ChildState × AddrMap :=
  let p := write_byte st addr 0xcc
  (p.2, insertAddr breakpoints addr p.1)

/-- `char::to_digit(radix)` from Rust core, for the radixes the source
uses (10 and 16). -/
def charToDigit (base : Nat) (c : Char) : Option Nat :=
  let d :=
    if '0' ≤ c ∧ c ≤ '9' then some (c.toNat - '0'.toNat)
    else if 'a' ≤ c ∧ c ≤ 'z' then some (c.toNat - 'a'.toNat + 10)
    else if 'A' ≤ c ∧ c ≤ 'Z' then some (c.toNat - 'A'.toNat + 10)
    else none
  match d with
  | some v => if v < base then some v else none
  | none => none

/-- Digit accumulation of `usize::from_str_radix`. -/
def digitsToNatCore (base : Nat) : List Char → Nat → Option Nat
  | [], acc => some acc
  | c :: cs, acc =>
    match charToDigit base c with
    | none => none
    | some d => digitsToNatCore base cs (acc * base + d)

/-- A run of digits, rejecting the empty run and usize overflow. -/
def digitsToNat (base : Nat) (ds : List Char) : Option Nat :=
  if ds.isEmpty then none
  else
    match digitsToNatCore base ds 0 with
    | none => none
    | some v => if v < wordMod then some v else none

/-- `usize::from_str_radix` from Rust core: optional sign (for an unsigned
target a `-` only succeeds on a zero value), then digits. -/
def from_str_radix (s : String) (base : Nat) : Option Nat :=
  match s.toList with
  | [] => none
  | '+' :: ds => digitsToNat base ds
  | '-' :: ds =>
    match digitsToNat base ds with
    | some 0 => some 0
    | _ => none
  | ds => digitsToNat base ds

/-- From src/debugger.rs, `Debugger::parse_address`: strip a
case-insensitive `0x` prefix, parse the rest as hexadecimal. -/
def parse_address (addr : String) : Option Nat :=
  let addr_without_0x :=
    if strStartsWith (strToLower addr) "0x" then addr.drop 2 else addr
  from_str_radix addr_without_0x 16

/-- Outcome of resolving a `break <loc>` argument, one constructor per
user-visible message of src/debugger.rs lines 274-295. -/
inductive BreakResolution where
  | resolved (addr : Nat)
  | invalidAddress
  | invalidLineNumber
  | usageError
deriving DecidableEq

/-- From src/debugger.rs, the location-resolution prefix of the Breakpoint
arm (lines 274-295). -/
def resolve_breakpoint (d : DwarfData) (loc : String) : BreakResolution :=
  if strStartsWith loc "*" then
    match parse_address (loc.drop 1) with
    | some address => .resolved address
    | none => .invalidAddress
  else
    match from_str_radix loc 10 with
    | some line =>
      match get_addr_for_line d none line with
      | some address => .resolved address
      | none => .invalidLineNumber
    | none =>
      match get_addr_for_function d none loc with
      | some address => .resolved address
      | none => .usageError

/-- From src/debugger_command.rs, `enum DebuggerCommand`. -/
inductive DebuggerCommand where
  | Quit
  | Step
  | Run (args : List String)
  | Continue
  | Backtrace
  | Breakpoint (loc : String)
deriving DecidableEq

/-- Result of `DebuggerCommand::from_tokens`. `indexPanic` models the
out-of-bounds indexing panic of `tokens[0]` / `tokens[1]`, which aborts
the whole session. -/
inductive ParseOutcome where
  | ok (cmd : DebuggerCommand)
  | unrecognized
  | indexPanic
deriving DecidableEq

/-- From src/debugger_command.rs, `DebuggerCommand::from_tokens`. The
break aliases read `tokens[1]` unconditionally, so a break command with
no argument token panics. -/
def from_tokens (tokens : List String) : ParseOutcome :=
  match tokens with
  | [] => .indexPanic
  | t :: rest =>
    match t with
    | "q" | "quit" | "exit" => .ok .Quit
    | "s" | "step" | "next" => .ok .Step
    | "c" | "cont" | "continue" => .ok .Continue
    | "bt" | "back" | "backtrace" => .ok .Backtrace
    | "b" | "break" | "breakpoint" =>
      match rest with
      | [] => .indexPanic
      | arg :: _ => .ok (.Breakpoint arg)
    | "r" | "run" => .ok (.Run rest)
    | _ => .unrecognized

/-- Session state owned by `Debugger` (src/debugger.rs): the optional live
inferior and the two registries. -/
structure DebuggerState where
  inferior : Option ChildState
  breakpoints : AddrMap
  step_over_points : AddrMap

/-- Breakpoint installation loop of `Inferior::new` (src/inferior.rs
lines 94-102): for every registered address overwrite the target byte
with 0xcc and record the returned original byte back in the registry.
(`write_byte` failures, reported and skipped in the source, do not arise
in the model because memory is total.) -/
def installAll (st : ChildState) (breakpoints : AddrMap) : ChildState × AddrMap :=
  breakpoints.foldl
    (fun acc kv =>
      let p := write_byte acc.1 kv.1 0xcc
      (p.2, insertAddr acc.2 kv.1 p.1))
    (st, breakpoints)

/-- From src/inferior.rs, `Inferior::new`: the spawned child (an oracle:
the child stopped at exec, or `none` if spawning failed) with all
registered breakpoints patched in. -/
def inferior_new (spawnResult : Option ChildState) (breakpoints : AddrMap) :
    Option (ChildState × AddrMap) :=
  spawnResult.map fun child => installAll child breakpoints

/-- Outcome of one iteration of the `Debugger::run` command loop. -/
inductive LoopOutcome where
  | next (st : DebuggerState)
  | exitLoop (st : DebuggerState)
  | panicked
  | diverged

/-- From src/debugger.rs, the dispatch body of `Debugger::run` (lines
158-311), one command per call. User-facing messages are not modelled;
what matters is whether the loop continues (`next`), exits (`exitLoop`),
panics (`panicked`), or the backtrace walk never reaches its stop
condition (`diverged`). Per src/inferior.rs, `continue_run` receives only
the breakpoint registry. -/
def dispatch (d : DwarfData) (st : DebuggerState) (cmd : DebuggerCommand)
    (spawnResult : Option ChildState) (stepWait contWait : WaitOutcome)
    (btFuel : Nat) : LoopOutcome :=
  match cmd with
  | .Quit => .exitLoop { st with inferior := none }
  | .Run _ =>
    match inferior_new spawnResult st.breakpoints with
    | none => .next st
    | some (child, bps) =>
      let r := continue_run child none bps stepWait contWait
      match r.1 with
      | .Stopped _ _ => .next { st with inferior := some r.2, breakpoints := bps }
      | _ => .next { st with inferior := none, breakpoints := bps }
  | .Continue =>
    match st.inferior with
    | none => .next st
    | some child =>
      let r := continue_run child none st.breakpoints stepWait contWait
      match r.1 with
      | .Stopped _ _ => .next { st with inferior := some r.2 }
      | _ => .next { st with inferior := none }
  | .Step =>
    match st.inferior with
    | none => .next st
    | some child =>
      match step_over child st.breakpoints st.step_over_points none d stepWait contWait with
      | none => .panicked
      | some (status, child2, sps) =>
        match status with
        | .Stopped _ _ =>
          .next { st with inferior := some child2, step_over_points := sps }
        | _ => .next { st with inferior := none, step_over_points := sps }
  | .Backtrace =>
    match st.inferior with
    | none => .next st
    | some child =>
      match print_backtrace d child btFuel (child.rip, child.rbp) with
      | some _ => .next st
      | none => .diverged
  | .Breakpoint loc =>
    match resolve_breakpoint d loc with
    | .resolved addr =>
      match st.inferior with
      | some child =>
        let p := install_breakpoint_live child st.breakpoints addr
        .next { st with inferior := some p.1, breakpoints := p.2 }
      | none => .next { st with breakpoints := insertAddr st.breakpoints addr 0 }
    | _ => .next st

/-! Helper lemmas: word-aligned byte surgery. -/

/-- On x86_64, `align_addr_to_word` rounds a usize down to a multiple of 8. -/
theorem align_addr_to_word_eq (addr : Nat) (h : addr < wordMod) :
    align_addr_to_word addr = 8 * (addr / 8) := by
  have h1 : wordMod - 8 = (2 ^ 61 - 1) <<< 3 := by
    norm_num [wordMod, Nat.shiftLeft_eq]
  have h2 : 8 * (addr / 8) = (addr >>> 3) <<< 3 := by
    rw [Nat.shiftRight_eq_div_pow, Nat.shiftLeft_eq]
    norm_num [Nat.mul_comm]
  rw [align_addr_to_word, h1, h2]
  apply Nat.eq_of_testBit_eq
  intro i
  simp only [Nat.testBit_and, Nat.testBit_shiftLeft, Nat.testBit_shiftRight,
    Nat.testBit_two_pow_sub_one]
  by_cases h3 : 3 ≤ i
  · have h5 : 3 + (i - 3) = i := by omega
    by_cases h4 : i < 64
    · simp [h3, h5, show i - 3 < 61 by omega]
    · have h6 : addr.testBit i = false :=
        Nat.testBit_lt_two_pow (lt_of_lt_of_le h (Nat.pow_le_pow_right (by norm_num) (by omega)))
      simp [h3, h5, h6, show ¬(i - 3 < 61) by omega]
  · simp [h3]

/-- The byte offset used by `write_byte` is below 8. -/
theorem byte_offset_lt (addr : Nat) (h : addr < wordMod) :
    addr - align_addr_to_word addr < 8 := by
  rw [align_addr_to_word_eq addr h]; omega

/-- A byte has no bits at position 8 or above. -/
theorem testBit_of_lt_256 (v i : Nat) (hv : v < 256) (hi : 8 ≤ i) :
    v.testBit i = false := by
  apply Nat.testBit_lt_two_pow
  calc v < 256 := hv
    _ = 2 ^ 8 := by norm_num
    _ ≤ 2 ^ i := Nat.pow_le_pow_right (by norm_num) hi

/-- Bits of a patched word: inside the target byte they come from `v`,
elsewhere below bit 64 from `w`, and above they are clear. -/
theorem testBit_patchWord (w v k i : Nat) (hk : k ≤ 56) (hv : v < 256) :
    (patchWord w k v).testBit i =
      if k ≤ i ∧ i < k + 8 then v.testBit (i - k)
      else if i < 64 then w.testBit i else false := by
  have h255 : (0xff : Nat) = 2 ^ 8 - 1 := by norm_num
  have hm : wordMod - 1 = 2 ^ 64 - 1 := by norm_num [wordMod]
  simp only [patchWord, h255, hm, Nat.testBit_or, Nat.testBit_and, Nat.testBit_xor,
    Nat.testBit_shiftLeft, Nat.testBit_two_pow_sub_one]
  by_cases h1 : k ≤ i
  · by_cases h2 : i < k + 8
    · have h3 : i < 64 := by omega
      simp [h1, h2, h3, show i - k < 8 by omega]
    · have h4 : v.testBit (i - k) = false := testBit_of_lt_256 v (i - k) hv (by omega)
      by_cases h5 : i < 64
      · simp [h1, h2, h4, h5, show ¬(i - k < 8) by omega]
      · simp [h1, h2, h4, h5, show ¬(i - k < 8) by omega]
  · have h6 : i < 64 := by omega
    simp [h1, h6]

/-- Patching stays inside the 64-bit word. -/
theorem patchWord_lt (w v k : Nat) (hk : k ≤ 56) (hv : v < 256) :
    patchWord w k v < wordMod := by
  have : wordMod = 2 ^ 64 := rfl
  rw [this]
  apply Nat.lt_pow_two_of_testBit
  intro i hi
  rw [testBit_patchWord w v k i hk hv]
  simp [show ¬(k ≤ i ∧ i < k + 8) by omega, show ¬(i < 64) by omega]

/-- Reading back the byte just patched yields the patched value. -/
theorem getByte_patchWord_self (w v k : Nat) (hk : k ≤ 56) (hv : v < 256) :
    getByte (patchWord w k v) k = v := by
  apply Nat.eq_of_testBit_eq
  intro i
  have h255 : (0xff : Nat) = 2 ^ 8 - 1 := by norm_num
  simp only [getByte, h255, Nat.testBit_and, Nat.testBit_shiftRight,
    Nat.testBit_two_pow_sub_one, testBit_patchWord w v k (k + i) hk hv]
  by_cases h1 : i < 8
  · rw [if_pos (by omega : k ≤ k + i ∧ k + i < k + 8)]
    simp [h1, show k + i - k = i by omega]
  · have h2 : v.testBit i = false := testBit_of_lt_256 v i hv (by omega)
    simp [h1, h2]

/-- Patching one byte leaves the other bytes of the word unchanged. -/
theorem getByte_patchWord_other (w v k j : Nat) (hk : k ≤ 56) (hj : j ≤ 56)
    (hv : v < 256) (hdisj : j + 8 ≤ k ∨ k + 8 ≤ j) :
    getByte (patchWord w k v) j = getByte w j := by
  apply Nat.eq_of_testBit_eq
  intro i
  simp only [getByte, Nat.testBit_and, Nat.testBit_shiftRight,
    testBit_patchWord w v k (j + i) hk hv]
  by_cases h1 : i < 8
  · rw [if_neg (by omega : ¬(k ≤ j + i ∧ j + i < k + 8)),
      if_pos (by omega : j + i < 64)]
  · have hbit : (0xff : Nat).testBit i = false := by
      rw [show (0xff : Nat) = 2 ^ 8 - 1 by norm_num, Nat.testBit_two_pow_sub_one]
      simp [h1]
    simp [hbit]

/-- The value `write_byte` returns is the byte currently at the address. -/
theorem write_byte_fst (st : ChildState) (addr val : Nat) :
    (write_byte st addr val).1 = byteAt st addr := rfl

/-- The memory `write_byte` leaves behind: the containing word is the
patched word, all other words are untouched. -/
theorem write_byte_mem (st : ChildState) (addr val x : Nat) :
    (write_byte st addr val).2.mem x =
      if x = align_addr_to_word addr then
        patchWord (readWord st (align_addr_to_word addr))
          (8 * (addr - align_addr_to_word addr)) val
      else st.mem x := rfl

/-- `write_byte` only touches memory and the log. -/
theorem write_byte_rip (st : ChildState) (addr val : Nat) :
    (write_byte st addr val).2.rip = st.rip := rfl

theorem write_byte_rbp (st : ChildState) (addr val : Nat) :
    (write_byte st addr val).2.rbp = st.rbp := rfl

theorem write_byte_log (st : ChildState) (addr val : Nat) :
    (write_byte st addr val).2.log = st.log ++ [.patch addr val] := rfl

/-- After `write_byte addr val`, the byte at `addr` is `val`. -/
theorem byteAt_write_byte_self (st : ChildState) (addr val : Nat)
    (ha : addr < wordMod) (hv : val < 256) :
    byteAt (write_byte st addr val).2 addr = val := by
  have hoff : addr - align_addr_to_word addr < 8 := byte_offset_lt addr ha
  have hk : 8 * (addr - align_addr_to_word addr) ≤ 56 := by omega
  have hlt : patchWord (readWord st (align_addr_to_word addr))
      (8 * (addr - align_addr_to_word addr)) val < wordMod :=
    patchWord_lt _ _ _ hk hv
  show (readWord (write_byte st addr val).2 (align_addr_to_word addr) >>>
      (8 * (addr - align_addr_to_word addr))) &&& 0xff = val
  rw [readWord, write_byte_mem, if_pos rfl, Nat.mod_eq_of_lt hlt]
  exact getByte_patchWord_self _ _ _ hk hv

/-- Byte reads ignore the register file. -/
theorem byteAt_withRip (st : ChildState) (r a : Nat) :
    byteAt { st with rip := r } a = byteAt st a := rfl

/-- Byte reads ignore the ghost log. -/
theorem byteAt_withLog (st : ChildState) (l : List PtraceEvent) (a : Nat) :
    byteAt { st with log := l } a = byteAt st a := rfl

/-- Byte reads only depend on the memory field. -/
theorem byteAt_mem_eq (st1 st2 : ChildState) (a : Nat) (h : st1.mem = st2.mem) :
    byteAt st1 a = byteAt st2 a := by
  unfold byteAt readWord
  rw [h]

/-- After `write_byte` at a different address, any other byte is unchanged. -/
theorem byteAt_write_byte_other (st : ChildState) (a b val : Nat)
    (ha : a < wordMod) (hb : b < wordMod) (hne : a ≠ b) (hv : val < 256) :
    byteAt (write_byte st b val).2 a = byteAt st a := by
  have hoffa : a - align_addr_to_word a < 8 := byte_offset_lt a ha
  have hoffb : b - align_addr_to_word b < 8 := byte_offset_lt b hb
  by_cases hw : align_addr_to_word a = align_addr_to_word b
  · have hka : 8 * (a - align_addr_to_word a) ≤ 56 := by omega
    have hkb : 8 * (b - align_addr_to_word b) ≤ 56 := by omega
    have hdist : a - align_addr_to_word a ≠ b - align_addr_to_word b := by
      rw [align_addr_to_word_eq a ha, align_addr_to_word_eq b hb] at hw ⊢
      omega
    show (readWord (write_byte st b val).2 (align_addr_to_word a) >>>
        (8 * (a - align_addr_to_word a))) &&& 0xff = byteAt st a
    rw [readWord, write_byte_mem, hw, if_pos rfl,
      Nat.mod_eq_of_lt (patchWord_lt _ _ _ hkb hv)]
    have := getByte_patchWord_other (readWord st (align_addr_to_word b)) val
      (8 * (b - align_addr_to_word b)) (8 * (a - align_addr_to_word a))
      hkb hka hv (by omega)
    simpa [getByte, byteAt, hw] using this
  · show (readWord (write_byte st b val).2 (align_addr_to_word a) >>>
        (8 * (a - align_addr_to_word a))) &&& 0xff = byteAt st a
    rw [readWord, write_byte_mem, if_neg hw]
    rfl

/-- Lookup after an overwriting insert. -/
theorem lookupAddr_insertAddr (m : AddrMap) (a v x : Nat) :
    lookupAddr (insertAddr m a v) x = if a = x then some v else lookupAddr m x := by
  induction m with
  | nil => simp [insertAddr, lookupAddr]
  | cons kv rest ih =>
    obtain ⟨k, w⟩ := kv
    by_cases hk : k = a
    · subst hk
      by_cases hx : k = x
      · subst hx; simp [insertAddr, lookupAddr]
      · simp [insertAddr, lookupAddr, hx]
    · by_cases hx : k = x
      · subst hx
        have hak : ¬a = k := fun h => hk h.symm
        simp [insertAddr, hk, lookupAddr, hak]
      · simp [insertAddr, hk, lookupAddr, hx, ih]

/-! Claim theorems. -/

/-- C3: for every address and every pair of byte values `x`, `y`, writing
`x` and then `y` at the same address returns exactly `x` from the second
`write_byte` call. -/
theorem write_byte_second_returns_first (st : ChildState) (addr x y : Nat)
    (haddr : addr < wordMod) (hx : x < 256) (hy : y < 256) :
    (write_byte (write_byte st addr x).2 addr y).1 = x := by
  rw [write_byte_fst]
  exact byteAt_write_byte_self st addr x haddr hx

/-- Witness for C3 at a concrete state and concrete byte values. -/
theorem write_byte_second_returns_first_witness :
    (write_byte (write_byte ⟨fun _ => 0, 0x401051, 0, []⟩ 0x401050 0x55).2
      0x401050 0xcc).1 = 0x55 :=
  write_byte_second_returns_first ⟨fun _ => 0, 0x401051, 0, []⟩ 0x401050 0x55 0xcc
    (by decide) (by decide) (by decide)

/-- C4: for two distinct addresses inside the same machine word, writing
`va` at `a` and then `vb` at `b` leaves the byte at `a` equal to `va`,
the byte at `b` equal to `vb`, and every other byte of that word at its
prior value. -/
theorem write_byte_same_word_transparency (st : ChildState) (a b va vb : Nat)
    (ha : a < wordMod) (hb : b < wordMod) (hne : a ≠ b)
    (hword : align_addr_to_word a = align_addr_to_word b)
    (hva : va < 256) (hvb : vb < 256) :
    byteAt (write_byte (write_byte st a va).2 b vb).2 a = va ∧
    byteAt (write_byte (write_byte st a va).2 b vb).2 b = vb ∧
    ∀ c, c < wordMod → align_addr_to_word c = align_addr_to_word a →
      c ≠ a → c ≠ b →
      byteAt (write_byte (write_byte st a va).2 b vb).2 c = byteAt st c := by
  refine ⟨?_, ?_, ?_⟩
  · rw [byteAt_write_byte_other _ a b vb ha hb hne hvb]
    exact byteAt_write_byte_self st a va ha hva
  · exact byteAt_write_byte_self _ b vb hb hvb
  · intro c hc _ hca hcb
    rw [byteAt_write_byte_other _ c b vb hc hb hcb hvb,
      byteAt_write_byte_other _ c a va hc ha hca hva]

/-- Witness for C4: two neighbouring addresses of one word, checked at a
third byte of the same word as well. -/
theorem write_byte_same_word_transparency_witness :
    byteAt (write_byte (write_byte ⟨fun _ => 0, 0x401051, 0, []⟩ 0x401050 0x55).2
      0x401051 0x66).2 0x401050 = 0x55 ∧
    byteAt (write_byte (write_byte ⟨fun _ => 0, 0x401051, 0, []⟩ 0x401050 0x55).2
      0x401051 0x66).2 0x401051 = 0x66 ∧
    byteAt (write_byte (write_byte ⟨fun _ => 0, 0x401051, 0, []⟩ 0x401050 0x55).2
      0x401051 0x66).2 0x401052 =
      byteAt ⟨fun _ => 0, 0x401051, 0, []⟩ 0x401052 :=
  ⟨(write_byte_same_word_transparency ⟨fun _ => 0, 0x401051, 0, []⟩ 0x401050 0x401051
      0x55 0x66 (by decide) (by decide) (by decide) (by decide) (by decide) (by decide)).1,
   (write_byte_same_word_transparency ⟨fun _ => 0, 0x401051, 0, []⟩ 0x401050 0x401051
      0x55 0x66 (by decide) (by decide) (by decide) (by decide) (by decide) (by decide)).2.1,
   (write_byte_same_word_transparency ⟨fun _ => 0, 0x401051, 0, []⟩ 0x401050 0x401051
      0x55 0x66 (by decide) (by decide) (by decide) (by decide) (by decide) (by decide)).2.2
     0x401052 (by decide) (by decide) (by decide) (by decide)⟩

/-- After a `write_byte`, the written byte survives any update of the
registers or the log. -/
theorem byteAt_record_write (X : ChildState) (c v r2 rb : Nat) (L : List PtraceEvent)
    (hc : c < wordMod) (hv : v < 256) :
    byteAt ⟨(write_byte X c v).2.mem, r2, rb, L⟩ c = v := by
  have h := byteAt_write_byte_self X c v hc hv
  rw [byteAt_mem_eq ⟨(write_byte X c v).2.mem, r2, rb, L⟩ (write_byte X c v).2 c rfl]
  exact h

/-- C1: when the child is stopped one byte past a registered breakpoint
and `continue_run` returns a `Stopped` status, the operation performed,
in order, restore of the saved byte, rewind of the instruction pointer,
single-step, re-arm of `0xcc`, resume — and the byte at the breakpoint
address is `0xcc` again on return. The saved byte in the registry is
unchanged by construction: the source borrows the registry immutably
(`&HashMap<usize, u8>`), which the embedding reflects by `continue_run`
not returning a registry. -/
theorem continue_run_rearms_breakpoint (st : ChildState) (signal : Option Nat)
    (breakpoints : AddrMap) (stepWait contWait : WaitOutcome) (ori sig ip : Nat)
    (hrip : st.rip < wordMod) (hone : 1 ≤ st.rip)
    (hbp : lookupAddr breakpoints (st.rip - 1) = some ori)
    (hstop : (continue_run st signal breakpoints stepWait contWait).1 = .Stopped sig ip) :
    byteAt (continue_run st signal breakpoints stepWait contWait).2 (st.rip - 1) = 0xcc ∧
    (continue_run st signal breakpoints stepWait contWait).2.log =
      st.log ++ [.patch (st.rip - 1) ori, .setRip (st.rip - 1), .singleStep,
        .patch (st.rip - 1) 0xcc, .resume signal] := by
  cases stepWait with
  | exited code =>
    simp [continue_run, hbp, applyWait] at hstop
  | signaled s =>
    simp [continue_run, hbp, applyWait] at hstop
  | stopped s r =>
    cases contWait with
    | exited code =>
      simp [continue_run, hbp, applyWait, resumeAndWait] at hstop
    | signaled s2 =>
      simp [continue_run, hbp, applyWait, resumeAndWait] at hstop
    | stopped s2 r2 =>
      constructor
      · simp only [continue_run, hbp, applyWait, resumeAndWait]
        exact byteAt_record_write _ (st.rip - 1) 0xcc _ _ _ (by omega) (by norm_num)
      · simp [continue_run, hbp, applyWait, resumeAndWait, write_byte_log]

/-- Witness for C1 at a concrete stopped child and registry. -/
theorem continue_run_rearms_breakpoint_witness :
    byteAt (continue_run ⟨fun _ => 0x90, 0x401051, 0, []⟩ none [(0x401050, 0x55)]
      (.stopped 5 0x401051) (.stopped 5 0x401060)).2 0x401050 = 0xcc ∧
    (continue_run ⟨fun _ => 0x90, 0x401051, 0, []⟩ none [(0x401050, 0x55)]
      (.stopped 5 0x401051) (.stopped 5 0x401060)).2.log =
      [] ++ [.patch 0x401050 0x55, .setRip 0x401050, .singleStep,
        .patch 0x401050 0xcc, .resume none] :=
  continue_run_rearms_breakpoint ⟨fun _ => 0x90, 0x401051, 0, []⟩ none
    [(0x401050, 0x55)] (.stopped 5 0x401051) (.stopped 5 0x401060) 0x55 5 0x401060
    (by decide) (by decide) (by decide) (by decide)

/-- Resuming and waiting never touches memory. -/
theorem resumeAndWait_mem (st : ChildState) (signal : Option Nat) (o : WaitOutcome) :
    (resumeAndWait st signal o).2.mem = st.mem := by
  cases o <;> rfl

/-- Resuming and waiting appends exactly the resume event to the log. -/
theorem resumeAndWait_log (st : ChildState) (signal : Option Nat) (o : WaitOutcome) :
    (resumeAndWait st signal o).2.log = st.log ++ [.resume signal] := by
  cases o <;> rfl

/-- C2 counterexample: a child stopped one past an installed pending-step
point (saved byte `0x55` at `0x401050`). `step_over` consumes the trap
byte but the entry is still present in the pending-step registry on
return, so the claim that the entry is absent on return fails. (The
source never calls `remove`; and `continue_run`, per src/inferior.rs,
does not receive the pending-step registry at all.) -/
theorem step_over_pending_entry_remains_cx :
    (step_over ⟨fun _ => 0, 0x401051, 0, []⟩ [] [(0x401050, 0x55)] none
      ⟨[], fun a => if a = 0x401051 then some ("hello.c", 7) else none, fun _ => none⟩
      (.stopped 5 0x401052) (.stopped 5 0x401060)).map
      (fun r => lookupAddr r.2.2 0x401050) = some (some 0x55) := rfl

/-- C2 amended: when the child is stopped at an installed pending-step
point, `step_over` restores the saved original byte and does not remove
the entry: on return the address is still present in the pending-step
registry, with its saved byte unchanged. The point is not re-armed: the
byte at the address remains the restored original on return, except in
the one case where the newly computed next-line trap targets that very
address, in which case step 3 writes `0xcc` there again as a fresh
install. (The hypothesis `hub` records that table addresses are usize
values, i.e. below `2 ^ 64`.) -/
theorem step_over_pending_entry_remains (st : ChildState)
    (breakpoints step_points : AddrMap) (signal : Option Nat) (d : DwarfData)
    (ori s r : Nat) (contWait : WaitOutcome) (L : Line)
    (hrip : st.rip < wordMod) (hone : 1 ≤ st.rip) (hori : ori < 256)
    (hline : get_line_from_addr d st.rip = some L)
    (hbp : lookupAddr breakpoints (st.rip - 1) = none)
    (hsp : lookupAddr step_points (st.rip - 1) = some ori)
    (hub : ∀ x, get_addr_for_line d none (L.number + 1) = some x → x < wordMod) :
    ∃ status st2 sp2,
      step_over st breakpoints step_points signal d (.stopped s r) contWait =
        some (status, st2, sp2) ∧
      lookupAddr sp2 (st.rip - 1) = some ori ∧
      (get_addr_for_line d none (L.number + 1) ≠ some (st.rip - 1) →
        byteAt st2 (st.rip - 1) = ori) := by
  have hc : st.rip - 1 < wordMod := by omega
  simp only [step_over, hline, hbp, hsp]
  cases hnext : get_addr_for_line d none (L.number + 1) with
  | none =>
    simp only [installAndResume, hnext]
    refine ⟨_, _, _, rfl, hsp, ?_⟩
    intro _
    rw [byteAt_mem_eq _ (write_byte st (st.rip - 1) ori).2 _
      (by rw [resumeAndWait_mem])]
    exact byteAt_write_byte_self st (st.rip - 1) ori hc hori
  | some a =>
    have ha : a < wordMod := hub a hnext
    simp only [installAndResume, hnext]
    refine ⟨_, _, _, rfl, ?_, ?_⟩
    · rw [lookupAddr_insertAddr]
      split
      · rename_i heq
        subst heq
        rw [write_byte_fst,
          byteAt_mem_eq _ (write_byte st (st.rip - 1) ori).2 _ (by rfl),
          byteAt_write_byte_self st (st.rip - 1) ori hc hori]
      · exact hsp
    · intro hne
      have hane : a ≠ st.rip - 1 := fun h => hne (by rw [h])
      rw [byteAt_mem_eq _ _ _ (resumeAndWait_mem _ signal contWait),
        byteAt_write_byte_other _ (st.rip - 1) a 0xcc hc ha
          (fun h => hane h.symm) (by norm_num),
        byteAt_mem_eq _ (write_byte st (st.rip - 1) ori).2 _ (by rfl)]
      exact byteAt_write_byte_self st (st.rip - 1) ori hc hori

/-- Witness for the amended C2 at the concrete counterexample input. -/
theorem step_over_pending_entry_remains_witness :
    ∃ status st2 sp2,
      step_over ⟨fun _ => 0, 0x401051, 0, []⟩ [] [(0x401050, 0x55)] none
        ⟨[], fun a => if a = 0x401051 then some ("hello.c", 7) else none, fun _ => none⟩
        (.stopped 5 0x401052) (.stopped 5 0x401060) = some (status, st2, sp2) ∧
      lookupAddr sp2 0x401050 = some 0x55 ∧
      (get_addr_for_line
          ⟨[], fun a => if a = 0x401051 then some ("hello.c", 7) else none, fun _ => none⟩
          none (7 + 1) ≠ some 0x401050 →
        byteAt st2 0x401050 = 0x55) :=
  step_over_pending_entry_remains ⟨fun _ => 0, 0x401051, 0, []⟩ [] [(0x401050, 0x55)]
    none ⟨[], fun a => if a = 0x401051 then some ("hello.c", 7) else none, fun _ => none⟩
    0x55 5 0x401052 (.stopped 5 0x401060) ⟨"hello.c", 7, 0x401051⟩
    (by decide) (by decide) (by decide) rfl rfl rfl
    (fun x hx => by
      rw [show get_addr_for_line
          ⟨[], fun a => if a = 0x401051 then some ("hello.c", 7) else none, fun _ => none⟩
          none (7 + 1) = none from rfl] at hx
      exact Option.noConfusion hx)

/-- C5 counterexample: when the Address Mapper has no line for the
current instruction pointer, `step_over` aborts (the source unwraps the
`None`, panicking) instead of resuming: the embedded operation yields
`none`, the abnormal-abort value. -/
theorem step_over_missing_line_aborts_cx :
    step_over ⟨fun _ => 0, 0x401051, 0, []⟩ [] [] none
      ⟨[], fun _ => none, fun _ => none⟩
      (.stopped 5 0x401052) (.stopped 5 0x401060) = none := rfl

/-- C5 amended: `step_over` panics when the current address has no line
mapping; when the line is known but the next-line address is absent, no
trap is installed (memory is unchanged) and the child is resumed until an
existing breakpoint, signal, or exit. -/
theorem step_over_missing_next_addr_resumes (st : ChildState)
    (breakpoints step_points : AddrMap) (signal : Option Nat) (d : DwarfData)
    (stepWait contWait : WaitOutcome) :
    (get_line_from_addr d st.rip = none →
      step_over st breakpoints step_points signal d stepWait contWait = none) ∧
    (∀ L, get_line_from_addr d st.rip = some L →
      lookupAddr breakpoints (st.rip - 1) = none →
      lookupAddr step_points (st.rip - 1) = none →
      get_addr_for_line d none (L.number + 1) = none →
      ∃ status st2,
        step_over st breakpoints step_points signal d stepWait contWait =
          some (status, st2, step_points) ∧
        st2.mem = st.mem ∧
        st2.log = st.log ++ [.resume signal]) := by
  constructor
  · intro h
    simp [step_over, h]
  · intro L hline hbp hsp hnext
    simp only [step_over, hline, hbp, hsp, installAndResume, hnext]
    exact ⟨_, _, rfl, resumeAndWait_mem st signal contWait,
      resumeAndWait_log st signal contWait⟩

/-- Witness for the amended C5: both the panic case and the
no-next-address case, at concrete inputs. -/
theorem step_over_missing_next_addr_resumes_witness :
    step_over ⟨fun _ => 0, 0x401055, 0, []⟩ [] [] none
      ⟨[], fun _ => none, fun _ => none⟩
      (.stopped 5 0x401056) (.stopped 5 0x401070) = none ∧
    ∃ status st2,
      step_over ⟨fun _ => 0, 0x401055, 0, []⟩ [] [] none
        ⟨[], fun a => if a = 0x401055 then some ("hello.c", 9) else none, fun _ => none⟩
        (.stopped 5 0x401056) (.stopped 5 0x401070) = some (status, st2, []) ∧
      st2.mem = (fun _ => 0) ∧
      st2.log = [] ++ [.resume none] :=
  ⟨(step_over_missing_next_addr_resumes ⟨fun _ => 0, 0x401055, 0, []⟩ [] [] none
      ⟨[], fun _ => none, fun _ => none⟩
      (.stopped 5 0x401056) (.stopped 5 0x401070)).1 rfl,
   (step_over_missing_next_addr_resumes ⟨fun _ => 0, 0x401055, 0, []⟩ [] [] none
      ⟨[], fun a => if a = 0x401055 then some ("hello.c", 9) else none, fun _ => none⟩
      (.stopped 5 0x401056) (.stopped 5 0x401070)).2
     ⟨"hello.c", 9, 0x401055⟩ rfl rfl rfl rfl⟩

/-- C6 counterexample: with a live inferior whose byte at `0x401050` is
`0x55`, a first `break` there records `0x55`, but a second `break` at the
same (already patched) address records `0xcc` — the trap opcode, not the
pre-patch byte — as the saved byte. -/
theorem break_twice_saves_trap_byte_cx :
    byteAt ⟨fun _ => 0x55, 0x401051, 0, []⟩ 0x401050 = 0x55 ∧
    lookupAddr (install_breakpoint_live
      (install_breakpoint_live ⟨fun _ => 0x55, 0x401051, 0, []⟩ [] 0x401050).1
      (install_breakpoint_live ⟨fun _ => 0x55, 0x401051, 0, []⟩ [] 0x401050).2
      0x401050).2 0x401050 = some 0xcc := by
  exact ⟨rfl, rfl⟩

/-- C6 amended: a live `break` records, as the saved byte, the byte that
was at the target address immediately before this patch (and leaves
`0xcc` at the address). When the address was not already patched this is
the original instruction byte; a second live `break` at an already-armed
address records `0xcc` instead. -/
theorem install_breakpoint_saved_byte (st : ChildState) (breakpoints : AddrMap)
    (addr : Nat) (ha : addr < wordMod) :
    lookupAddr (install_breakpoint_live st breakpoints addr).2 addr =
      some (byteAt st addr) ∧
    byteAt (install_breakpoint_live st breakpoints addr).1 addr = 0xcc := by
  constructor
  · simp only [install_breakpoint_live]
    rw [lookupAddr_insertAddr, if_pos rfl, write_byte_fst]
  · simp only [install_breakpoint_live]
    exact byteAt_write_byte_self st addr 0xcc ha (by norm_num)

/-- Witness for the amended C6 at a concrete live child. -/
theorem install_breakpoint_saved_byte_witness :
    lookupAddr (install_breakpoint_live ⟨fun _ => 0x55, 0x401051, 0, []⟩ [] 0x401050).2
      0x401050 = some (byteAt ⟨fun _ => 0x55, 0x401051, 0, []⟩ 0x401050) ∧
    byteAt (install_breakpoint_live ⟨fun _ => 0x55, 0x401051, 0, []⟩ [] 0x401050).1
      0x401050 = 0xcc :=
  install_breakpoint_saved_byte ⟨fun _ => 0x55, 0x401051, 0, []⟩ [] 0x401050 (by decide)

/-- Unfolding the frame chain from the front. -/
theorem backtraceChain_succ_left (st : ChildState) (p : Nat × Nat) (n : Nat) :
    backtraceChain st p (n + 1) = backtraceChain st (backtraceStep st p) n := by
  induction n with
  | zero => rfl
  | succ n ih =>
    show backtraceStep st (backtraceChain st p (n + 1)) =
      backtraceChain st (backtraceStep st p) (n + 1)
    rw [ih]
    rfl

/-- One unfolding of the fuelled backtrace walk. -/
theorem print_backtrace_succ (d : DwarfData) (st : ChildState) (fuel : Nat)
    (p : Nat × Nat) :
    print_backtrace d st (fuel + 1) p =
      if backtraceStops d p.1 then
        some [(get_line_from_addr d p.1, get_function_from_addr d p.1)]
      else
        match print_backtrace d st fuel (backtraceStep st p) with
        | none => none
        | some rest =>
          some ((get_line_from_addr d p.1, get_function_from_addr d p.1) :: rest) := rfl

/-- If the stop condition holds after `n` advances from `p`, the fuelled
walk starting at `p` completes within `n + 1` frames. -/
theorem print_backtrace_of_stop (d : DwarfData) (st : ChildState) :
    ∀ (n : Nat) (p : Nat × Nat), backtraceStops d (backtraceChain st p n).1 = true →
      ∃ frames, print_backtrace d st (n + 1) p = some frames ∧
        frames.length ≤ n + 1 := by
  intro n
  induction n with
  | zero =>
    intro p h
    have h0 : backtraceStops d p.1 = true := h
    refine ⟨[(get_line_from_addr d p.1, get_function_from_addr d p.1)], ?_, by simp⟩
    rw [print_backtrace_succ, if_pos h0]
  | succ n ih =>
    intro p h
    by_cases hstop : backtraceStops d p.1 = true
    · refine ⟨[(get_line_from_addr d p.1, get_function_from_addr d p.1)], ?_, by simp⟩
      rw [print_backtrace_succ, if_pos hstop]
    · have h2 : backtraceStops d (backtraceChain st (backtraceStep st p) n).1 = true := by
        rw [← backtraceChain_succ_left]
        exact h
      obtain ⟨frames, hf, hl⟩ := ih (backtraceStep st p) h2
      refine ⟨(get_line_from_addr d p.1, get_function_from_addr d p.1) :: frames, ?_, ?_⟩
      · rw [print_backtrace_succ, if_neg hstop, hf]
      · simp
        omega

/-- C7: for a well-formed child — one whose frame-pointer chain reaches,
after finitely many advances, an address whose function is "main" or
unresolvable — the backtrace walk visits finitely many frames: with fuel
`n + 1` it completes, printing at most `n + 1` frames, stopping at the
first frame whose function name is unresolvable or equals "main" and
otherwise advancing `ip` to the word at `fp + 8` and `fp` to the word at
`fp`. -/
theorem print_backtrace_terminates (d : DwarfData) (st : ChildState) (n : Nat)
    (h : backtraceStops d (backtraceChain st (st.rip, st.rbp) n).1 = true) :
    ∃ frames, print_backtrace d st (n + 1) (st.rip, st.rbp) = some frames ∧
      frames.length ≤ n + 1 :=
  print_backtrace_of_stop d st n (st.rip, st.rbp) h

/-- Witness for C7: a concrete child two frames deep below "main". -/
theorem print_backtrace_terminates_witness :
    ∃ frames,
      print_backtrace
        ⟨[], fun _ => none,
          fun a => if a = 0x401060 then some "greet"
            else if a = 0x401110 then some "main" else none⟩
        ⟨fun a => if a = 1008 then 0x401110 else if a = 1000 then 2000 else 0,
          0x401060, 1000, []⟩
        (1 + 1) (0x401060, 1000) = some frames ∧
      frames.length ≤ 1 + 1 :=
  print_backtrace_terminates
    ⟨[], fun _ => none,
      fun a => if a = 0x401060 then some "greet"
        else if a = 0x401110 then some "main" else none⟩
    ⟨fun a => if a = 1008 then 0x401110 else if a = 1000 then 2000 else 0,
      0x401060, 1000, []⟩
    1 (by decide)

/-- C8: with an absent file argument, line resolution uses the first
compilation unit and returns the address of the first recorded line entry
whose number is at least the requested one; it returns nothing exactly
when no entry qualifies. -/
theorem get_addr_for_line_first_ge (d : DwarfData) (tf : File) (rest : List File)
    (n : Nat) (hfiles : d.files = tf :: rest) :
    (get_addr_for_line d none n = none ↔ ∀ l ∈ tf.lines, l.number < n) ∧
    (∀ a, get_addr_for_line d none n = some a →
      ∃ l pre post, tf.lines = pre ++ l :: post ∧ n ≤ l.number ∧ l.address = a ∧
        ∀ q ∈ pre, q.number < n) := by
  have hget : d.files[0]? = some tf := by rw [hfiles]; simp
  constructor
  · simp only [get_addr_for_line, hget, Option.map_eq_none', List.find?_eq_none,
      decide_eq_true_eq]
    constructor
    · intro h l hl
      have := h l hl
      omega
    · intro h l hl
      have := h l hl
      omega
  · intro a ha
    simp only [get_addr_for_line, hget, Option.map_eq_some'] at ha
    obtain ⟨l, hfind, haddr⟩ := ha
    rw [List.find?_eq_some] at hfind
    obtain ⟨hp, pre, post, heq, hpre⟩ := hfind
    refine ⟨l, pre, post, heq, by simpa using hp, haddr, ?_⟩
    intro q hq
    have := hpre q hq
    simp at this
    omega

/-- Witness for C8 at a concrete two-line table and a line number between
the two recorded lines. -/
theorem get_addr_for_line_first_ge_witness :
    (get_addr_for_line
        ⟨[⟨"hello.c", [], [⟨"hello.c", 5, 0x401050⟩, ⟨"hello.c", 11, 0x401100⟩]⟩],
          fun _ => none, fun _ => none⟩ none 6 = none ↔
      ∀ l ∈ [Line.mk "hello.c" 5 0x401050, Line.mk "hello.c" 11 0x401100],
        l.number < 6) ∧
    (∀ a,
      get_addr_for_line
        ⟨[⟨"hello.c", [], [⟨"hello.c", 5, 0x401050⟩, ⟨"hello.c", 11, 0x401100⟩]⟩],
          fun _ => none, fun _ => none⟩ none 6 = some a →
      ∃ l pre post,
        [Line.mk "hello.c" 5 0x401050, Line.mk "hello.c" 11 0x401100] =
          pre ++ l :: post ∧ 6 ≤ l.number ∧ l.address = a ∧
        ∀ q ∈ pre, q.number < 6) :=
  get_addr_for_line_first_ge
    ⟨[⟨"hello.c", [], [⟨"hello.c", 5, 0x401050⟩, ⟨"hello.c", 11, 0x401100⟩]⟩],
      fun _ => none, fun _ => none⟩
    ⟨"hello.c", [], [⟨"hello.c", 5, 0x401050⟩, ⟨"hello.c", 11, 0x401100⟩]⟩ [] 6 rfl

/-- C9 counterexample: a line table in which the entry for line 6 sits at
a lower address than the entry for line 5 (nothing in the source orders
the table by address). Resolution of 5 yields `0x401100`, of 6 yields
`0x401050`, and the first is not at most the second: monotonicity fails
as stated. -/
theorem get_addr_for_line_not_monotone_cx :
    get_addr_for_line
      ⟨[⟨"hello.c", [], [⟨"hello.c", 5, 0x401100⟩, ⟨"hello.c", 6, 0x401050⟩]⟩],
        fun _ => none, fun _ => none⟩ none 5 = some 0x401100 ∧
    get_addr_for_line
      ⟨[⟨"hello.c", [], [⟨"hello.c", 5, 0x401100⟩, ⟨"hello.c", 6, 0x401050⟩]⟩],
        fun _ => none, fun _ => none⟩ none 6 = some 0x401050 ∧
    ¬(0x401100 : Nat) ≤ 0x401050 :=
  ⟨rfl, rfl, by decide⟩

/-- On an address-sorted table, the first entry matching the relaxed rule
for `n + 1` sits no earlier than the one matching it for `n`. -/
theorem find?_le_of_pairwise (ls : List Line) (n : Nat) (l1 l2 : Line)
    (hsort : ls.Pairwise fun x y => x.address ≤ y.address)
    (h1 : ls.find? (fun l => decide (l.number ≥ n)) = some l1)
    (h2 : ls.find? (fun l => decide (l.number ≥ n + 1)) = some l2) :
    l1.address ≤ l2.address := by
  induction ls with
  | nil => simp at h1
  | cons hd tl ih =>
    rw [List.pairwise_cons] at hsort
    obtain ⟨hhd, htl⟩ := hsort
    by_cases hn1 : n + 1 ≤ hd.number
    · rw [List.find?_cons_of_pos _ (by simpa using show n ≤ hd.number by omega)] at h1
      rw [List.find?_cons_of_pos _ (by simpa using hn1)] at h2
      obtain rfl : hd = l1 := Option.some.inj h1
      obtain rfl : hd = l2 := Option.some.inj h2
      exact le_refl _
    · by_cases hn : n ≤ hd.number
      · rw [List.find?_cons_of_pos _ (by simpa using hn)] at h1
        rw [List.find?_cons_of_neg _ (by simpa using hn1)] at h2
        obtain rfl : hd = l1 := Option.some.inj h1
        exact hhd l2 (List.mem_of_find?_eq_some h2)
      · rw [List.find?_cons_of_neg _ (by simpa using hn)] at h1
        rw [List.find?_cons_of_neg _ (by simpa using hn1)] at h2
        exact ih htl h1 h2

/-- C9 amended: whenever the first compilation unit's line table is
sorted by address (nondecreasing in stored order), line resolution is
monotone: the address for `n` is at most the address for `n + 1` whenever
both are defined. -/
theorem get_addr_for_line_mono_of_sorted (d : DwarfData) (tf : File)
    (rest : List File) (n a b : Nat) (hfiles : d.files = tf :: rest)
    (hsorted : tf.lines.Pairwise fun x y => x.address ≤ y.address)
    (ha : get_addr_for_line d none n = some a)
    (hb : get_addr_for_line d none (n + 1) = some b) :
    a ≤ b := by
  have hget : d.files[0]? = some tf := by rw [hfiles]; simp
  simp only [get_addr_for_line, hget, Option.map_eq_some'] at ha hb
  obtain ⟨l1, h1, ha1⟩ := ha
  obtain ⟨l2, h2, hb2⟩ := hb
  subst ha1
  subst hb2
  exact find?_le_of_pairwise tf.lines n l1 l2 hsorted h1 h2

/-- Witness for the amended C9 on a concrete address-sorted table. -/
theorem get_addr_for_line_mono_of_sorted_witness :
    (0x401050 : Nat) ≤ 0x401100 :=
  get_addr_for_line_mono_of_sorted
    ⟨[⟨"hello.c", [], [⟨"hello.c", 5, 0x401050⟩, ⟨"hello.c", 11, 0x401100⟩]⟩],
      fun _ => none, fun _ => none⟩
    ⟨"hello.c", [], [⟨"hello.c", 5, 0x401050⟩, ⟨"hello.c", 11, 0x401100⟩]⟩
    [] 5 0x401050 0x401100 rfl (by simp) rfl rfl

/-- C10 counterexample: a `break` command with no argument token does not
print a usage message and continue — `from_tokens` indexes `tokens[1]`
out of bounds and the session panics. -/
theorem break_no_argument_panics_cx :
    from_tokens ["break"] = .indexPanic := rfl

/-- C10 amended: command usage errors other than an argument-less break —
a malformed (but present) break argument, or continue / step / backtrace
with no inferior — print a message and the command loop continues with
the state unchanged; but a break alias with no argument token panics in
`from_tokens`, terminating the session. -/
theorem user_errors_continue_loop :
    (∀ t, t ∈ (["b", "break", "breakpoint"] : List String) →
      from_tokens [t] = .indexPanic) ∧
    (∀ t arg rest, t ∈ (["b", "break", "breakpoint"] : List String) →
      from_tokens (t :: arg :: rest) = .ok (.Breakpoint arg)) ∧
    (∀ d st spawnResult stepWait contWait btFuel, st.inferior = none →
      dispatch d st .Continue spawnResult stepWait contWait btFuel = .next st ∧
      dispatch d st .Step spawnResult stepWait contWait btFuel = .next st ∧
      dispatch d st .Backtrace spawnResult stepWait contWait btFuel = .next st) ∧
    (∀ d st loc spawnResult stepWait contWait btFuel,
      (resolve_breakpoint d loc = .invalidAddress ∨
       resolve_breakpoint d loc = .invalidLineNumber ∨
       resolve_breakpoint d loc = .usageError) →
      dispatch d st (.Breakpoint loc) spawnResult stepWait contWait btFuel = .next st) := by
  refine ⟨?_, ?_, ?_, ?_⟩
  · intro t ht
    simp at ht
    rcases ht with rfl | rfl | rfl <;> rfl
  · intro t arg rest ht
    simp at ht
    rcases ht with rfl | rfl | rfl <;> rfl
  · intro d st spawnResult stepWait contWait btFuel h
    refine ⟨?_, ?_, ?_⟩ <;> simp [dispatch, h]
  · intro d st loc spawnResult stepWait contWait btFuel h
    rcases h with h | h | h <;> simp [dispatch, h]

/-- Witness for the amended C10 at concrete commands and session states. -/
theorem user_errors_continue_loop_witness :
    from_tokens ["b"] = .indexPanic ∧
    from_tokens ["break", "greet", "extra"] = .ok (.Breakpoint "greet") ∧
    dispatch ⟨[], fun _ => none, fun _ => none⟩ ⟨none, [], []⟩ .Continue none
      (.stopped 0 0) (.stopped 0 0) 0 = .next ⟨none, [], []⟩ ∧
    dispatch ⟨[], fun _ => none, fun _ => none⟩ ⟨none, [], []⟩ (.Breakpoint "zzz") none
      (.stopped 0 0) (.stopped 0 0) 0 = .next ⟨none, [], []⟩ :=
  ⟨user_errors_continue_loop.1 "b" (by simp),
   user_errors_continue_loop.2.1 "break" "greet" ["extra"] (by simp),
   (user_errors_continue_loop.2.2.1 ⟨[], fun _ => none, fun _ => none⟩ ⟨none, [], []⟩
     none (.stopped 0 0) (.stopped 0 0) 0 rfl).1,
   user_errors_continue_loop.2.2.2 ⟨[], fun _ => none, fun _ => none⟩ ⟨none, [], []⟩
     "zzz" none (.stopped 0 0) (.stopped 0 0) 0 (Or.inr (Or.inr rfl))⟩

end Deet
